import Mathlib

/-
Verification of the core algorithms of the DSP Milky Way tool, shallowly
embedded from the Python sources (helpers.py, binary_reader.py,
user_data_downloader.py, downloader.py, cluster_player_downloader.py,
generate_pie_chart.py, md5f.py).

Conventions of the embedding:
- Python integers are modelled as Nat or Int.  Python floor division and
  modulus on Int agree with Lean's Int division and modulus (euclidean
  division) whenever the divisor is positive, and positive divisors are the
  only divisors occurring in the sources.
- Floats appear in two places.  The one-decimal multiplier display is
  embedded as exact decimal rendering, which equals the Python output on
  the reachable arguments 0..99.  The capacity formatter has two
  embeddings: an exact-rational idealization of the float pipeline, used by
  the record decoders for their capacity strings, and a bit-faithful
  binary64 model (correctly rounded quotient, then correctly rounded
  decimal rendering of that double), which settles the formatting claim;
  the two differ where double rounding shifts a comparison or a digit.
- Byte streams are lists of Nat together with a cursor; fallible reads return
  Except values, so a failed decode can never deliver a partial result.
-/

namespace DSP

/-- Python helpers.resource_multiplier: raw value 99 means unlimited
(rendered 无限), otherwise n/10.0 is rendered with one decimal digit.  The
format f-string on the float n/10.0 is embedded as the exact one-decimal
rendering of the rational n/10, which it equals for every int n in range. -/
def resource_multiplier (n : ℤ) : String :=
  if n = 99 then "无限"
  else (if n < 0 then "-" else "") ++
    toString (n.natAbs / 10) ++ "." ++ toString (n.natAbs % 10)

/-- Python helpers.combat_mode_difficulty_number: raw values below 100 mean
peace mode (rendered 和平模式), otherwise the difficulty is raw mod 100. -/
def combat_mode_difficulty_number (n : ℤ) : String :=
  if n / 100 = 0 then "和平模式" else toString (n % 100)

/-- Python helpers.decode_seed_key: fixed-radix positional unpacking of the
64-bit seed key into (seed, stars, multiplier display, difficulty display). -/
def decode_seed_key (seed_key : ℤ) : ℤ × ℤ × String × String :=
  (seed_key / 100000000,
   (seed_key / 100000) % 1000,
   resource_multiplier ((seed_key / 1000) % 100),
   combat_mode_difficulty_number (seed_key % 1000))

/-- Modelled from the spec: encode_seed_key is imported by
cluster_player_downloader.py from helpers, but no definition exists under
src/.  The spec gives the forward packing
key = seed*10^8 + stars*10^5 + resource_mult_raw*10^3 + combat_diff_raw. -/
def encode_seed_key (seed stars mult_raw diff_raw : ℕ) : ℕ :=
  seed * 100000000 + stars * 100000 + mult_raw * 1000 + diff_raw

/-- C1: for every seed key built by the forward packing with stars in
[0,999], mult_raw in [0,99] and diff_raw in [0,199], decode_seed_key returns
the original seed and the original star count exactly. -/
theorem C1_encode_decode_seed_key (seed stars mult_raw diff_raw : ℕ)
    (hs : stars ≤ 999) (hm : mult_raw ≤ 99) (hd : diff_raw ≤ 199) :
    (decode_seed_key (encode_seed_key seed stars mult_raw diff_raw)).1 = seed ∧
    (decode_seed_key (encode_seed_key seed stars mult_raw diff_raw)).2.1 = stars := by
  refine ⟨?_, ?_⟩ <;>
    simp only [decode_seed_key, encode_seed_key] <;> push_cast <;> omega

/-- Witness for C1 at a concrete input. -/
theorem C1_encode_decode_seed_key_witness :
    12345678 ≤ 99999999 ∧ 64 ≤ 999 ∧ 10 ≤ 99 ∧ 103 ≤ 199 ∧
    (decode_seed_key (encode_seed_key 12345678 64 10 103)).1 = 12345678 ∧
    (decode_seed_key (encode_seed_key 12345678 64 10 103)).2.1 = 64 := by
  refine ⟨by decide, by decide, by decide, by decide, ?_⟩
  exact C1_encode_decode_seed_key 12345678 64 10 103 (by decide) (by decide) (by decide)

/-- One-decimal-place rendering of m/10 for a nonnegative integer m; the form
the claim text uses for the multiplier display. -/
def oneDecimalOf (m : ℤ) : String :=
  toString (m / 10) ++ "." ++ toString (m % 10)

theorem toString_intCast (n : ℕ) : toString (n : ℤ) = toString n := rfl

/-- C2: decode_seed_key returns seed = k div 10^8, stars = (k div 10^5) mod
1000, the multiplier display 无限 when the raw multiplier is 99 and otherwise
its value over ten with exactly one decimal place, and the difficulty display
和平模式 when (k mod 1000) div 100 is zero and otherwise the plain decimal
string of (k mod 1000) mod 100. -/
theorem C2_decode_seed_key_components (k : ℤ) :
    decode_seed_key k =
      (k / 100000000,
       (k / 100000) % 1000,
       (if (k / 1000) % 100 = 99 then "无限"
        else oneDecimalOf ((k / 1000) % 100)),
       (if (k % 1000) / 100 = 0 then "和平模式"
        else toString ((k % 1000) % 100))) := by
  have hm0 : 0 ≤ (k / 1000) % 100 := Int.emod_nonneg _ (by norm_num)
  obtain ⟨n, hn⟩ : ∃ n : ℕ, (k / 1000) % 100 = (n : ℤ) :=
    ⟨((k / 1000) % 100).toNat, (Int.toNat_of_nonneg hm0).symm⟩
  have h3 : resource_multiplier ((k / 1000) % 100) =
      (if (k / 1000) % 100 = 99 then "无限"
       else oneDecimalOf ((k / 1000) % 100)) := by
    rw [hn]
    unfold resource_multiplier oneDecimalOf
    by_cases h99 : (n : ℤ) = 99
    · simp [h99]
    · rw [if_neg h99, if_neg h99, if_neg (not_lt.mpr (Int.natCast_nonneg n))]
      rfl
  simp only [decode_seed_key, h3, combat_mode_difficulty_number]


/-- Nearest integer to the fraction num/den for positive den, ties to even:
the rounding performed by Python float formatting, exactly on the rational
value. -/
def roundHalfEvenFrac (num den : ℤ) : ℤ :=
  let q := num / den
  let r := num % den
  if 2 * r < den then q
  else if 2 * r > den then q + 1
  else if q % 2 = 0 then q else q + 1

/-- Left-pad a string with zeros up to width k. -/
def padZeros (k : ℕ) (s : String) : String :=
  String.mk (List.replicate (k - s.length) '0') ++ s

/-- Fixed-point rendering of the fraction num/den (den positive) with k
decimal digits, rounding half to even.  Applied to the exact value of a
binary64 float this is exactly Python float formatting with precision k
(CPython renders floats correctly rounded, half to even); applied directly
to a watts/threshold fraction it is the exact-rational idealization of the
float pipeline used by the record decoders below. -/
def formatFixedFrac (num den : ℤ) (k : ℕ) : String :=
  let n := roundHalfEvenFrac (num * 10 ^ k) den
  if k = 0 then toString n
  else toString (n / 10 ^ k) ++ "." ++ padZeros k (toString (n % 10 ^ k))

/-- Body of the loop in helpers.format_generation_capacity for one unit,
with value = watts/threshold idealized as the exact fraction num/den and
the float comparisons replaced by the corresponding exact integer
comparisons.  The bit-faithful variant, which first rounds the quotient to
binary64 as the program does, is floatPrec below; the two can differ where
the correctly rounded double crosses a comparison boundary the exact
quotient does not. -/
def formatPrec (num den : ℤ) (unit : String) : String :=
  if num ≥ 100 * den then formatFixedFrac num den 0 ++ " " ++ unit
  else if num ≥ 10 * den then formatFixedFrac num den 1 ++ " " ++ unit
  else formatFixedFrac num den 2 ++ " " ++ unit

/-- Exact-rational idealization of helpers.format_generation_capacity (the
loop over the literal unit list unrolled into the if-chain): each quotient
watts/threshold is kept exact instead of being rounded to binary64.  The
record decoders below use it for their capacity strings; the bit-faithful
embedding of the program is format_generation_capacity_float below, and
the two differ at inputs where double rounding moves a comparison or a
printed digit (for example 10^17-1 and 1015*10^12). -/
def format_generation_capacity (watts : ℤ) : String :=
  if watts ≥ 1000000000000000 then formatPrec watts 1000000000000000 "PW"
  else if watts ≥ 1000000000000 then formatPrec watts 1000000000000 "TW"
  else if watts ≥ 1000000000 then formatPrec watts 1000000000 "GW"
  else if watts ≥ 1000000 then formatPrec watts 1000000 "MW"
  else if watts ≥ 1000 then formatPrec watts 1000 "kW"
  else if watts ≥ 1 then formatPrec watts 1 "W"
  else toString watts ++ " W"

/-- Precision selection exactly as the claim words it, for the quotient
num/den. -/
def claimPrec (num den : ℤ) : String :=
  if 100 * den ≤ num then formatFixedFrac num den 0
  else if 10 * den ≤ num then formatFixedFrac num den 1
  else formatFixedFrac num den 2

/-- The formatting behaviour claim C6 states, written from the claim text
and read with exact rational quotients: select the largest unit whose
quotient is at least 1 (unit W when none qualifies) and render the quotient
with 0, 1 or 2 decimals according to its size.  Used to refute the claim at
watts = 0, a float-free input where this reading is unambiguous. -/
def claimCapacityFormat (watts : ℤ) : String :=
  if 1 * 1000000000000000 ≤ watts then claimPrec watts 1000000000000000 ++ " " ++ "PW"
  else if 1 * 1000000000000 ≤ watts then claimPrec watts 1000000000000 ++ " " ++ "TW"
  else if 1 * 1000000000 ≤ watts then claimPrec watts 1000000000 ++ " " ++ "GW"
  else if 1 * 1000000 ≤ watts then claimPrec watts 1000000 ++ " " ++ "MW"
  else if 1 * 1000 ≤ watts then claimPrec watts 1000 ++ " " ++ "kW"
  else claimPrec watts 1 ++ " " ++ "W"

/-- C6 counterexample: at watts = 0 no unit qualifies and the code prints
the bare integer, while the claim's precision rules demand two decimals. -/
theorem C6_counterexample :
    format_generation_capacity 0 ≠ claimCapacityFormat 0 ∧
    format_generation_capacity 0 = "0 W" ∧
    claimCapacityFormat 0 = "0.00 W" := by
  refine ⟨?_, by rfl, by rfl⟩
  decide

/-- Floor of the base-2 logarithm, written with a fuel argument so that it
computes by kernel reduction; always called with fuel = n, which bounds the
number of halvings. -/
def log2Fuel : ℕ → ℕ → ℕ
  | 0, _ => 0
  | fuel + 1, n => if n < 2 then 0 else 1 + log2Fuel fuel (n / 2)

/-- The IEEE-754 binary64 value of p/q for positive q and p/q at least 1
(the only quotients the capacity formatter produces), returned as an exact
fraction: the significand is rounded to 53 bits half to even, renormalized
on carry, and an exponent beyond 1023 is none, where CPython raises
OverflowError.  This is exactly CPython int/int true division, which is
correctly rounded. -/
def doubleOfRat (p q : ℤ) : Option (ℤ × ℤ) :=
  let e0 : ℕ := log2Fuel (p / q).toNat (p / q).toNat
  let m0 : ℤ := if e0 ≤ 52 then roundHalfEvenFrac (p * 2 ^ (52 - e0)) q
                else roundHalfEvenFrac p (q * 2 ^ (e0 - 52))
  let m : ℤ := if m0 = 2 ^ 53 then 2 ^ 52 else m0
  let e : ℕ := if m0 = 2 ^ 53 then e0 + 1 else e0
  if 1023 < e then none
  else some (if 52 ≤ e then (m * 2 ^ (e - 52), 1) else (m, 2 ^ (52 - e)))

/-- Body of the loop in helpers.format_generation_capacity for one unit,
applied to the already-rounded binary64 quotient dn/dd: the comparisons
against 100 and 10 are the program's exact float-int comparisons, and the
rendering is the correctly rounded decimal of the double. -/
def floatPrec (dn dd : ℤ) (unit : String) : String :=
  if dn ≥ 100 * dd then formatFixedFrac dn dd 0 ++ " " ++ unit
  else if dn ≥ 10 * dd then formatFixedFrac dn dd 1 ++ " " ++ unit
  else formatFixedFrac dn dd 2 ++ " " ++ unit

/-- One selected unit of the bit-faithful formatter: divide (rounding to
binary64, none on overflow) and format. -/
def fmtUnitFloat (watts t : ℤ) (unit : String) : Option String :=
  match doubleOfRat watts t with
  | none => none
  | some d => some (floatPrec d.1 d.2 unit)

/-- Bit-faithful embedding of helpers.format_generation_capacity: the unit
selection compares integers exactly as the source does, the quotient is the
correctly rounded binary64 value of watts/threshold, the precision choice
compares that double, and the digits are its correctly rounded decimal
rendering; none models the OverflowError CPython raises when the quotient
exceeds the double range.  Cross-checked against CPython on unit and
precision boundaries and decimal ties, including the double-rounding cases
10^17-1 (printed 100 PW) and 1015*10^12 (printed 1.01 PW). -/
def format_generation_capacity_float (watts : ℤ) : Option String :=
  if watts ≥ 1000000000000000 then fmtUnitFloat watts 1000000000000000 "PW"
  else if watts ≥ 1000000000000 then fmtUnitFloat watts 1000000000000 "TW"
  else if watts ≥ 1000000000 then fmtUnitFloat watts 1000000000 "GW"
  else if watts ≥ 1000000 then fmtUnitFloat watts 1000000 "MW"
  else if watts ≥ 1000 then fmtUnitFloat watts 1000 "kW"
  else if watts ≥ 1 then fmtUnitFloat watts 1 "W"
  else some (toString watts ++ " W")

/-- Precision selection as the amended claim words it, on the binary64
quotient dn/dd. -/
def claimPrecFloat (dn dd : ℤ) : String :=
  if 100 * dd ≤ dn then formatFixedFrac dn dd 0
  else if 10 * dd ≤ dn then formatFixedFrac dn dd 1
  else formatFixedFrac dn dd 2

/-- The formatting behaviour the amended claim C6 states: select the
largest unit whose quotient is at least 1 (unit W when none qualifies) and
render the binary64 value of the quotient with 0, 1 or 2 decimals according
to that float value; none where the quotient overflows the double range. -/
def claimCapacityFormatFloat (watts : ℤ) : Option String :=
  if 1 * 1000000000000000 ≤ watts then
    match doubleOfRat watts 1000000000000000 with
    | none => none
    | some d => some (claimPrecFloat d.1 d.2 ++ " " ++ "PW")
  else if 1 * 1000000000000 ≤ watts then
    match doubleOfRat watts 1000000000000 with
    | none => none
    | some d => some (claimPrecFloat d.1 d.2 ++ " " ++ "TW")
  else if 1 * 1000000000 ≤ watts then
    match doubleOfRat watts 1000000000 with
    | none => none
    | some d => some (claimPrecFloat d.1 d.2 ++ " " ++ "GW")
  else if 1 * 1000000 ≤ watts then
    match doubleOfRat watts 1000000 with
    | none => none
    | some d => some (claimPrecFloat d.1 d.2 ++ " " ++ "MW")
  else if 1 * 1000 ≤ watts then
    match doubleOfRat watts 1000 with
    | none => none
    | some d => some (claimPrecFloat d.1 d.2 ++ " " ++ "kW")
  else
    match doubleOfRat watts 1 with
    | none => none
    | some d => some (claimPrecFloat d.1 d.2 ++ " " ++ "W")

theorem log2Fuel_le : ∀ (f n k : ℕ), n < 2 ^ (k + 1) → log2Fuel f n ≤ k := by
  intro f
  induction f with
  | zero => intro n k _; exact Nat.zero_le k
  | succ f ih =>
    intro n k h
    simp only [log2Fuel]
    by_cases h2 : n < 2
    · rw [if_pos h2]
      exact Nat.zero_le k
    · rw [if_neg h2]
      cases k with
      | zero =>
        exfalso
        norm_num at h
        omega
      | succ k =>
        have hpow : (2 : ℕ) ^ (k + 1 + 1) = 2 * 2 ^ (k + 1) := by ring
        have hhalf : n / 2 < 2 ^ (k + 1) := by omega
        have := ih (n / 2) k hhalf
        omega

theorem isSome_ite_none {α : Type} (c : Prop) [Decidable c] (y : α)
    (hc : ¬ c) : (if c then (none : Option α) else some y).isSome = true := by
  rw [if_neg hc]
  rfl

theorem doubleOfRat_isSome {p q : ℤ} (hq : 0 < q) (hlt : p < q * 2 ^ 1023) :
    (doubleOfRat p q).isSome = true := by
  have hdiv : p / q < 2 ^ 1023 := by
    rw [Int.ediv_lt_iff_lt_mul hq]
    calc p < q * 2 ^ 1023 := hlt
      _ = 2 ^ 1023 * q := by ring
  have hcast : ((2 : ℕ) ^ 1023 : ℤ) = (2 : ℤ) ^ 1023 := by push_cast; ring
  have hn : (p / q).toNat < 2 ^ 1023 := by omega
  have he0 : log2Fuel (p / q).toNat (p / q).toNat ≤ 1022 :=
    log2Fuel_le _ _ 1022 (by simpa using hn)
  simp only [doubleOfRat]
  apply isSome_ite_none
  split_ifs <;> omega

theorem fmtUnitFloat_claim (watts t : ℤ) (u : String) :
    fmtUnitFloat watts t u =
      match doubleOfRat watts t with
      | none => none
      | some d => some (claimPrecFloat d.1 d.2 ++ " " ++ u) := by
  unfold fmtUnitFloat
  cases doubleOfRat watts t with
  | none => rfl
  | some d =>
    show some (floatPrec d.1 d.2 u) = some (claimPrecFloat d.1 d.2 ++ " " ++ u)
    unfold floatPrec claimPrecFloat
    split_ifs <;> rfl

theorem fmtUnitFloat_isSome {watts t : ℤ} (u : String) (ht : 0 < t)
    (hlt : watts < t * 2 ^ 1023) : (fmtUnitFloat watts t u).isSome = true := by
  unfold fmtUnitFloat
  cases hD : doubleOfRat watts t with
  | none =>
    have hs := doubleOfRat_isSome ht hlt
    rw [hD] at hs
    simp at hs
  | some d => rfl

theorem watts_lt_thresh_mul {watts t : ℤ} (h : watts ≤ 10 ^ 300) (ht : 1 ≤ t) :
    watts < t * 2 ^ 1023 := by
  have h1 : (10 : ℤ) ^ 300 < 2 ^ 1023 := by norm_num
  have h2 : (2 : ℤ) ^ 1023 ≤ t * 2 ^ 1023 :=
    le_mul_of_one_le_left (by positivity) ht
  omega

/-- C6 amended (binary64-faithful): for every positive watts the formatter
selects the largest unit whose quotient is at least 1 (an exact integer
comparison in the code) and renders the correctly rounded binary64 value of
watts/threshold with 0 decimals when that float is at least 100, 1 decimal
when it is in [10, 100) and 2 decimals below 10 — precision choice and
digits refer to the float64 quotient, not the exact rational one; quotients
beyond the double range raise (modelled as none), and up to 10^300 no
overflow occurs; the three stated examples hold; the two double-rounding
showcases 10^17-1 (100 PW, where the exact quotient is below 100) and
1015*10^12 (1.01 PW, an exact decimal tie the double sits below) print as
the program does; and at watts = 0, where no unit qualifies, the output is
the bare integer with unit W instead of a two-decimal rendering. -/
theorem C6_format_generation_capacity_float (watts : ℤ) (h : 0 ≤ watts) :
    (1 ≤ watts →
      format_generation_capacity_float watts = claimCapacityFormatFloat watts) ∧
    (1 ≤ watts → watts ≤ 10 ^ 300 →
      (format_generation_capacity_float watts).isSome = true) ∧
    (watts = 0 →
      format_generation_capacity_float watts = some (toString watts ++ " W")) ∧
    format_generation_capacity_float 1500000000 = some "1.50 GW" ∧
    format_generation_capacity_float 999 = some "999 W" ∧
    format_generation_capacity_float 250000000000000 = some "250 TW" ∧
    format_generation_capacity_float 99999999999999999 = some "100 PW" ∧
    format_generation_capacity_float 1015000000000000 = some "1.01 PW" := by
  refine ⟨?_, ?_, ?_, by decide, by decide, by decide, by decide, by decide⟩
  · intro h1
    simp only [format_generation_capacity_float, claimCapacityFormatFloat,
      fmtUnitFloat_claim, ge_iff_le, one_mul]
    split_ifs <;> rfl
  · intro h1 hb
    simp only [format_generation_capacity_float, ge_iff_le]
    split_ifs <;>
      exact fmtUnitFloat_isSome _ (by norm_num)
        (watts_lt_thresh_mul hb (by norm_num))
  · intro h0
    subst h0
    rfl

/-- Witness for C6 at watts = 999. -/
theorem C6_format_generation_capacity_float_witness :
    (0 : ℤ) ≤ 999 ∧
    ((1 ≤ (999 : ℤ) →
       format_generation_capacity_float 999 = claimCapacityFormatFloat 999) ∧
     (1 ≤ (999 : ℤ) → (999 : ℤ) ≤ 10 ^ 300 →
       (format_generation_capacity_float 999).isSome = true) ∧
     ((999 : ℤ) = 0 →
       format_generation_capacity_float 999 = some (toString (999 : ℤ) ++ " W")) ∧
     format_generation_capacity_float 1500000000 = some "1.50 GW" ∧
     format_generation_capacity_float 999 = some "999 W" ∧
     format_generation_capacity_float 250000000000000 = some "250 TW" ∧
     format_generation_capacity_float 99999999999999999 = some "100 PW" ∧
     format_generation_capacity_float 1015000000000000 = some "1.01 PW") :=
  ⟨by decide, C6_format_generation_capacity_float 999 (by decide)⟩


/-- Decode errors of the binary reading layer: unexpectedEOF models the
EOFError raised by BinReader.read on a short read (the spec's
UnexpectedEndOfData); varIntTooLong models the ValueError raised by
read7bit_encoded_int (the spec's VarIntTooLong); nonFiniteFloat models the
error Python int() raises on a non-finite float value. -/
inductive BinErr where
  | unexpectedEOF
  | varIntTooLong
  | nonFiniteFloat
  deriving DecidableEq

/-- A byte buffer (the io.BytesIO contents handed to BinReader) together
with the read cursor. -/
structure BinState where
  data : List ℕ
  pos : ℕ
  deriving DecidableEq

/-- Reader computations: methods of BinReader advance the cursor and may
raise; an error aborts the whole computation, so no partial result exists. -/
def ReadM (α : Type) : Type := BinState → Except BinErr (α × BinState)

/-- Sequencing of reader computations (exception propagation). -/
def bindR {α β : Type} (p : ReadM α) (q : α → ReadM β) : ReadM β := fun s =>
  match p s with
  | .ok (a, s') => q a s'
  | .error e => .error e

/-- A pure value as a reader computation. -/
def pureR {α : Type} (a : α) : ReadM α := fun s => .ok (a, s)

/-- Python BinReader.read: return exactly n bytes and advance the cursor by
n, or raise EOFError when fewer than n bytes remain. -/
def readR (n : ℕ) : ReadM (List ℕ) := fun s =>
  if s.pos + n ≤ s.data.length then
    .ok ((s.data.drop s.pos).take n, ⟨s.data, s.pos + n⟩)
  else .error .unexpectedEOF

/-- Little-endian integer value of a byte list (struct.unpack with <). -/
def fromLEBytes (bs : List ℕ) : ℕ := bs.foldr (fun b acc => b + 256 * acc) 0

/-- Python BinReader.u8. -/
def u8R : ReadM ℕ := bindR (readR 1) (fun bs => pureR (fromLEBytes bs))

/-- Python BinReader.u32 (little-endian unsigned). -/
def u32R : ReadM ℕ := bindR (readR 4) (fun bs => pureR (fromLEBytes bs))

/-- Python BinReader.i32 (little-endian two's complement signed). -/
def i32R : ReadM ℤ := bindR (readR 4) (fun bs => pureR
  (if fromLEBytes bs < 2147483648 then (fromLEBytes bs : ℤ)
   else (fromLEBytes bs : ℤ) - 4294967296))

/-- Python BinReader.i64 (little-endian two's complement signed). -/
def i64R : ReadM ℤ := bindR (readR 8) (fun bs => pureR
  (if fromLEBytes bs < 9223372036854775808 then (fromLEBytes bs : ℤ)
   else (fromLEBytes bs : ℤ) - 18446744073709551616))

/-- Loop of BinReader.read7bit_encoded_int.  The Python loop runs while
shift is not 35 and shift steps through 0, 7, 14, 21, 28 starting from 0;
fuel counts the remaining iterations, so fuel = (35 - shift) / 7, and
fuel 0 is the shift = 35 exit that raises the too-long error. -/
def read7bitLoop : ℕ → ℕ → ℕ → ReadM ℕ
  | 0, _, _ => fun _ => .error .varIntTooLong
  | fuel + 1, num, shift =>
    bindR u8R (fun b =>
      if b &&& 128 = 0 then pureR (num ||| ((b &&& 127) <<< shift))
      else read7bitLoop fuel (num ||| ((b &&& 127) <<< shift)) (shift + 7))

/-- Python BinReader.read7bit_encoded_int. -/
def read7bit_encoded_int : ReadM ℕ := read7bitLoop 5 0 0

/-- The 7-bit continuation encoding named by the claim: low 7 bits per
byte, least significant group first, high bit set on every byte except the
last. -/
def encode7bit : ℕ → List ℕ
  | v =>
    if v < 128 then [v]
    else (v % 128 + 128) :: encode7bit (v / 128)
  termination_by v => v
  decreasing_by exact Nat.div_lt_self (by omega) (by omega)

theorem u8R_eq {data : List ℕ} {pos b : ℕ} {rest : List ℕ}
    (h : data.drop pos = b :: rest) :
    u8R ⟨data, pos⟩ = .ok (b, ⟨data, pos + 1⟩) := by
  have hlen : pos + 1 ≤ data.length := by
    have := congrArg List.length h
    simp only [List.length_drop, List.length_cons] at this
    omega
  have htake : (data.drop pos).take 1 = [b] := by rw [h]; rfl
  simp only [u8R, bindR, readR, if_pos hlen, htake, pureR, fromLEBytes,
    List.foldr_cons, List.foldr_nil]
  norm_num

theorem drop_succ_of_drop_cons {data : List ℕ} {pos a : ℕ} {l : List ℕ}
    (h : data.drop pos = a :: l) : data.drop (pos + 1) = l := by
  have := congrArg (List.drop 1) h
  rw [List.drop_drop] at this
  simpa [Nat.add_comm] using this


theorem bindR_ok {α β : Type} {p : ReadM α} {q : α → ReadM β}
    {s s' : BinState} {a : α} (h : p s = .ok (a, s')) :
    bindR p q s = q a s' := by
  simp [bindR, h]

theorem and_127_eq (b : ℕ) : b &&& 127 = b % 128 := by
  have := Nat.and_pow_two_sub_one_eq_mod b 7
  norm_num at this
  exact this

theorem and_128_eq_zero {b : ℕ} (h : b < 128) : b &&& 128 = 0 := by
  have h2 := Nat.and_two_pow b 7
  rw [Nat.testBit_lt_two_pow (by norm_num [h] : b < 2 ^ 7)] at h2
  norm_num at h2
  exact h2

theorem and_128_ne_zero {x : ℕ} (h : x < 128) : (x + 128) &&& 128 ≠ 0 := by
  have h2 := Nat.and_two_pow (x + 128) 7
  have hbit : (x + 128).testBit 7 = true := by
    have h3 := Nat.testBit_two_pow_add_eq x 7
    rw [Nat.testBit_lt_two_pow (by norm_num [h] : x < 2 ^ 7)] at h3
    norm_num at h3
    rw [Nat.add_comm]
    exact h3
  rw [hbit] at h2
  norm_num at h2
  omega

theorem lor_shift_eq_add {num v shift : ℕ} (h : num < 2 ^ shift) :
    num ||| (v <<< shift) = num + v * 2 ^ shift := by
  calc num ||| (v <<< shift) = (2 ^ shift * v) ||| num := by
        rw [Nat.shiftLeft_eq, Nat.lor_comm, Nat.mul_comm]
    _ = 2 ^ shift * v + num := (Nat.mul_add_lt_is_or h v).symm
    _ = num + v * 2 ^ shift := by ring

theorem encode7bit_length :
    ∀ (k v : ℕ), v < 128 ^ (k + 1) → (encode7bit v).length ≤ k + 1 := by
  intro k
  induction k with
  | zero =>
    intro v hv
    unfold encode7bit
    rw [if_pos (by simpa using hv)]
    simp
  | succ k ih =>
    intro v hv
    unfold encode7bit
    by_cases h : v < 128
    · rw [if_pos h]; simp
    · rw [if_neg h]
      have hlt : v / 128 < 128 ^ (k + 1) := by
        rw [Nat.div_lt_iff_lt_mul (by norm_num)]
        calc v < 128 ^ (k + 1 + 1) := hv
          _ = 128 ^ (k + 1) * 128 := by ring
      simpa using ih (v / 128) hlt

/-- Running the varint loop on the continuation encoding of v accumulates
v shifted into the given bit position on top of the bits already in num. -/
theorem read7bitLoop_encode :
    ∀ (v fuel num shift : ℕ) (data : List ℕ) (pos : ℕ) (rest : List ℕ),
      data.drop pos = encode7bit v ++ rest →
      (encode7bit v).length ≤ fuel →
      num < 2 ^ shift →
      read7bitLoop fuel num shift ⟨data, pos⟩ =
        .ok (num + v * 2 ^ shift, ⟨data, pos + (encode7bit v).length⟩) := by
  intro v
  induction v using Nat.strong_induction_on with
  | _ v ih =>
    intro fuel num shift data pos rest hdrop hfuel hnum
    by_cases hv : v < 128
    · have henc : encode7bit v = [v] := by
        conv_lhs => rw [encode7bit]
        rw [if_pos hv]
      rw [henc] at hdrop hfuel ⊢
      obtain ⟨f, rfl⟩ : ∃ f, fuel = f + 1 := ⟨fuel - 1, by simp only [List.length_cons] at hfuel; omega⟩
      simp only [read7bitLoop]
      rw [bindR_ok (u8R_eq (by simpa using hdrop)), if_pos (and_128_eq_zero hv)]
      simp only [pureR, List.length_cons, List.length_nil]
      rw [and_127_eq, Nat.mod_eq_of_lt hv, lor_shift_eq_add hnum]
    · have henc : encode7bit v = (v % 128 + 128) :: encode7bit (v / 128) := by
        conv_lhs => rw [encode7bit]
        rw [if_neg hv]
      rw [henc] at hdrop hfuel ⊢
      obtain ⟨f, rfl⟩ : ∃ f, fuel = f + 1 := ⟨fuel - 1, by simp only [List.length_cons] at hfuel; omega⟩
      have hdrop' : data.drop pos =
          (v % 128 + 128) :: (encode7bit (v / 128) ++ rest) := by simpa using hdrop
      simp only [read7bitLoop]
      rw [bindR_ok (u8R_eq hdrop'),
        if_neg (and_128_ne_zero (Nat.mod_lt v (by norm_num)))]
      have hb7 : (v % 128 + 128) &&& 127 = v % 128 := by rw [and_127_eq]; omega
      rw [hb7, lor_shift_eq_add hnum]
      have hnumlt : num + v % 128 * 2 ^ shift < 2 ^ (shift + 7) := by
        have h1 : v % 128 * 2 ^ shift ≤ 127 * 2 ^ shift :=
          Nat.mul_le_mul_right _ (by omega)
        have ht : (2 : ℕ) ^ (shift + 7) = 128 * 2 ^ shift := by rw [pow_add]; ring
        omega
      rw [ih (v / 128) (Nat.div_lt_self (by omega) (by norm_num)) f _ _ data
        (pos + 1) rest (drop_succ_of_drop_cons hdrop')
        (by simp only [List.length_cons] at hfuel; omega) hnumlt]
      have hval : num + v % 128 * 2 ^ shift + v / 128 * 2 ^ (shift + 7) =
          num + v * 2 ^ shift := by
        have hsplit : v % 128 + 128 * (v / 128) = v := Nat.mod_add_div v 128
        calc num + v % 128 * 2 ^ shift + v / 128 * 2 ^ (shift + 7)
            = num + (v % 128 + 128 * (v / 128)) * 2 ^ shift := by
              rw [pow_add]; ring
          _ = num + v * 2 ^ shift := by rw [hsplit]
      rw [hval]
      simp only [List.length_cons]
      rw [show pos + 1 + (encode7bit (v / 128)).length =
        pos + ((encode7bit (v / 128)).length + 1) from by omega]

/-- C3: feeding read7bit_encoded_int the 7-bit continuation encoding of any
v below 2^32 returns exactly v and consumes exactly the encoding; the Nat
accumulator carries no sign, so no sign extension can occur. -/
theorem C3_varint_roundtrip (v : ℕ) (h : v < 4294967296) :
    read7bit_encoded_int ⟨encode7bit v, 0⟩ =
      .ok (v, ⟨encode7bit v, (encode7bit v).length⟩) := by
  have hlen : (encode7bit v).length ≤ 5 := by
    refine encode7bit_length 4 v ?_
    calc v < 4294967296 := h
      _ < 128 ^ (4 + 1) := by norm_num
  have h2 := read7bitLoop_encode v 5 0 0 (encode7bit v) 0 [] (by simp) hlen
    (by norm_num)
  unfold read7bit_encoded_int
  simpa using h2

/-- Witness for C3 at v = 300 (a two-byte encoding). -/
theorem C3_varint_roundtrip_witness :
    300 < 4294967296 ∧
    read7bit_encoded_int ⟨encode7bit 300, 0⟩ =
      .ok (300, ⟨encode7bit 300, (encode7bit 300).length⟩) :=
  ⟨by decide, C3_varint_roundtrip 300 (by decide)⟩

theorem read7bitLoop_allHigh :
    ∀ (pre data : List ℕ) (pos : ℕ) (rest : List ℕ) (num shift : ℕ),
      data.drop pos = pre ++ rest →
      (∀ x ∈ pre, x &&& 128 ≠ 0) →
      read7bitLoop pre.length num shift ⟨data, pos⟩ = .error .varIntTooLong := by
  intro pre
  induction pre with
  | nil => intro data pos rest num shift _ _; rfl
  | cons a pre ih =>
    intro data pos rest num shift hdrop hhigh
    have hdrop' : data.drop pos = a :: (pre ++ rest) := by simpa using hdrop
    simp only [List.length_cons, read7bitLoop]
    rw [bindR_ok (u8R_eq hdrop'), if_neg (hhigh a (by simp))]
    exact ih data (pos + 1) rest _ _ (drop_succ_of_drop_cons hdrop')
      (fun x hx => hhigh x (by simp [hx]))

theorem read7bitLoop_terminator :
    ∀ (pre : List ℕ) (fuel : ℕ) (data : List ℕ) (pos b : ℕ) (rest : List ℕ)
      (num shift : ℕ),
      data.drop pos = pre ++ b :: rest →
      pre.length < fuel →
      (∀ x ∈ pre, x &&& 128 ≠ 0) →
      b &&& 128 = 0 →
      ∃ v, read7bitLoop fuel num shift ⟨data, pos⟩ =
        .ok (v, ⟨data, pos + pre.length + 1⟩) := by
  intro pre
  induction pre with
  | nil =>
    intro fuel data pos b rest num shift hdrop hfuel _ hterm
    obtain ⟨f, rfl⟩ : ∃ f, fuel = f + 1 := ⟨fuel - 1, by omega⟩
    refine ⟨num ||| ((b &&& 127) <<< shift), ?_⟩
    simp only [read7bitLoop]
    rw [bindR_ok (u8R_eq (by simpa using hdrop)), if_pos hterm]
    simp [pureR]
  | cons a pre ih =>
    intro fuel data pos b rest num shift hdrop hfuel hhigh hterm
    obtain ⟨f, rfl⟩ : ∃ f, fuel = f + 1 := ⟨fuel - 1, by simp only [List.length_cons] at hfuel; omega⟩
    have hdrop' : data.drop pos = a :: (pre ++ b :: rest) := by simpa using hdrop
    simp only [read7bitLoop]
    rw [bindR_ok (u8R_eq hdrop'), if_neg (hhigh a (by simp))]
    obtain ⟨v, hv⟩ := ih f data (pos + 1) b rest
      (num ||| ((a &&& 127) <<< shift)) (shift + 7)
      (drop_succ_of_drop_cons hdrop') (by simp only [List.length_cons] at hfuel; omega)
      (fun x hx => hhigh x (by simp [hx])) hterm
    refine ⟨v, ?_⟩
    rw [hv]
    simp only [List.length_cons]
    rw [show pos + 1 + pre.length + 1 = pos + (pre.length + 1) + 1 from by omega]

/-- C4: when the first five bytes at the cursor all carry the continuation
bit, read7bit_encoded_int raises the too-long error after its fifth byte
(fuel 0 is the shift = 35 exit), for every possible continuation of the
stream, so a sixth byte is never read and the error cannot be an EOF error;
and whenever a byte with a clear high bit occurs within the first five
bytes, the read returns normally, consuming exactly through that byte. -/
theorem C4_varint_too_long :
    (∀ (b0 b1 b2 b3 b4 : ℕ) (rest : List ℕ),
      b0 &&& 128 ≠ 0 → b1 &&& 128 ≠ 0 → b2 &&& 128 ≠ 0 →
      b3 &&& 128 ≠ 0 → b4 &&& 128 ≠ 0 →
      read7bit_encoded_int ⟨b0 :: b1 :: b2 :: b3 :: b4 :: rest, 0⟩ =
        .error .varIntTooLong) ∧
    (∀ (pre : List ℕ) (b : ℕ) (rest : List ℕ),
      pre.length < 5 →
      (∀ x ∈ pre, x &&& 128 ≠ 0) →
      b &&& 128 = 0 →
      ∃ v, read7bit_encoded_int ⟨pre ++ b :: rest, 0⟩ =
        .ok (v, ⟨pre ++ b :: rest, pre.length + 1⟩)) := by
  constructor
  · intro b0 b1 b2 b3 b4 rest h0 h1 h2 h3 h4
    have h5 := read7bitLoop_allHigh [b0, b1, b2, b3, b4]
      (b0 :: b1 :: b2 :: b3 :: b4 :: rest) 0 rest 0 0 (by simp)
      (by intro x hx
          simp at hx
          rcases hx with h | h | h | h | h <;> subst h <;> assumption)
    simpa [read7bit_encoded_int] using h5
  · intro pre b rest hlen hhigh hterm
    have h5 := read7bitLoop_terminator pre 5 (pre ++ b :: rest) 0 b rest 0 0
      (by simp) hlen hhigh hterm
    simpa [read7bit_encoded_int] using h5

/-- Witness for C4: five continuation bytes followed by junk raise the
too-long error; a high byte followed by a terminator byte succeeds after
two bytes. -/
theorem C4_varint_too_long_witness :
    read7bit_encoded_int ⟨[128, 129, 130, 131, 132, 7], 0⟩ =
      .error .varIntTooLong ∧
    ∃ v, read7bit_encoded_int ⟨[200, 1], 0⟩ = .ok (v, ⟨[200, 1], 2⟩) := by
  constructor
  · exact C4_varint_too_long.1 128 129 130 131 132 [7]
      (by decide) (by decide) (by decide) (by decide) (by decide)
  · have h5 := C4_varint_too_long.2 [200] 1 [] (by decide)
      (by intro x hx
          simp at hx
          subst hx
          decide) (by decide)
    simpa using h5


/-- Decimal value of a string of ASCII digits, as Python int() computes it
on the digit strings arising here. -/
def strToNat (s : String) : ℕ :=
  s.data.foldl (fun n c => n * 10 + (c.toNat - 48)) 0

/-- Python generate_pie_chart.combat_difficulty_to_raw: 和平模式 maps to 0, a
single-character difficulty d is parsed as int of the string 10 followed
by d, and any longer difficulty d as int of the string 1 followed by d. -/
def combat_difficulty_to_raw (diff_str : String) : ℕ :=
  if diff_str = "和平模式" then 0
  else if diff_str.length = 1 then strToNat ("10" ++ diff_str)
  else strToNat ("1" ++ diff_str)

set_option maxRecDepth 40000 in
/-- C9: combat_difficulty_to_raw implements exactly the stated three-way
mapping, and for every raw value in 0 or [100,199] it inverts the display
mapping combat_mode_difficulty_number. -/
theorem C9_combat_difficulty_to_raw :
    (combat_difficulty_to_raw "和平模式" = 0) ∧
    (∀ d : String, d.length = 1 →
      combat_difficulty_to_raw d = strToNat ("10" ++ d)) ∧
    (∀ d : String, d ≠ "和平模式" → d.length ≠ 1 →
      combat_difficulty_to_raw d = strToNat ("1" ++ d)) ∧
    (∀ raw : ℕ, raw = 0 ∨ (100 ≤ raw ∧ raw ≤ 199) →
      combat_difficulty_to_raw (combat_mode_difficulty_number (raw : ℤ)) = raw) := by
  refine ⟨rfl, ?_, ?_, ?_⟩
  · intro d hd
    have hne : d ≠ "和平模式" := by
      intro heq
      rw [heq] at hd
      exact absurd hd (by decide)
    rw [combat_difficulty_to_raw, if_neg hne, if_pos hd]
  · intro d hne hlen
    rw [combat_difficulty_to_raw, if_neg hne, if_neg hlen]
  · intro raw hr
    have h200 : raw < 200 := by omega
    revert hr
    revert raw
    decide

/-- Witness for C9: parsing checks at concrete strings and raw values. -/
theorem C9_combat_difficulty_to_raw_witness :
    combat_difficulty_to_raw "和平模式" = 0 ∧
    ("5" : String).length = 1 ∧
    combat_difficulty_to_raw "5" = strToNat ("10" ++ "5") ∧
    combat_difficulty_to_raw (combat_mode_difficulty_number ((105 : ℕ) : ℤ)) = 105 := by
  refine ⟨C9_combat_difficulty_to_raw.1, by decide, ?_, ?_⟩
  · exact C9_combat_difficulty_to_raw.2.1 "5" (by decide)
  · exact C9_combat_difficulty_to_raw.2.2.2 105 (by omega)


/-- 32-bit mask used throughout md5f.py. -/
def MASK32 : ℕ := 0xFFFFFFFF

/-- Python bitwise complement followed by masking to 32 bits.  In md5f.py
the complement is always combined by a bitwise and with a value below 2^32
or fed into a sum that is masked with MASK32, so only the low 32 bits of
the (negative) Python result ever matter; those equal this xor. -/
def mdNot (x : ℕ) : ℕ := MASK32 ^^^ x

/-- Python md5f._F. -/
def mdF (x y z : ℕ) : ℕ := (x &&& y) ||| (mdNot x &&& z)

/-- Python md5f._G. -/
def mdG (x y z : ℕ) : ℕ := (x &&& z) ||| (y &&& mdNot z)

/-- Python md5f._H. -/
def mdH (x y z : ℕ) : ℕ := x ^^^ y ^^^ z

/-- Python md5f._I. -/
def mdI (x y z : ℕ) : ℕ := y ^^^ (x ||| mdNot z)

/-- Python md5f._rol. -/
def mdRol (v s : ℕ) : ℕ :=
  let v' := v &&& MASK32
  ((v' <<< s) ||| (v' >>> (32 - s))) &&& MASK32

/-- Python md5f._FF. -/
def mdFF (a b c d mj s ti : ℕ) : ℕ :=
  let a1 := (a + mdF b c d + mj + ti) &&& MASK32
  (mdRol a1 s + b) &&& MASK32

/-- Python md5f._GG. -/
def mdGG (a b c d mj s ti : ℕ) : ℕ :=
  let a1 := (a + mdG b c d + mj + ti) &&& MASK32
  (mdRol a1 s + b) &&& MASK32

/-- Python md5f._HH. -/
def mdHH (a b c d mj s ti : ℕ) : ℕ :=
  let a1 := (a + mdH b c d + mj + ti) &&& MASK32
  (mdRol a1 s + b) &&& MASK32

/-- Python md5f._II. -/
def mdII (a b c d mj s ti : ℕ) : ℕ :=
  let a1 := (a + mdI b c d + mj + ti) &&& MASK32
  (mdRol a1 s + b) &&& MASK32

/-- The four class-level accumulator words MD5F.A, MD5F.B, MD5F.C, MD5F.D of
md5f.py, modelled as an explicit state value. -/
structure MD5State where
  A : ℕ
  B : ℕ
  C : ℕ
  D : ℕ
  deriving DecidableEq

/-- Python MD5F._init_state: overwrites all four class words with the fixed
(non-standard) initialization vector, ignoring whatever they held. -/
def MD5F_init_state (s : MD5State) : MD5State :=
  match s with
  | _ => ⟨1732584193, 4024216457, 2562383102, 271734598⟩

/-- Little-endian byte serialization of n on k bytes (int.to_bytes little). -/
def toLEBytesN : ℕ → ℕ → List ℕ
  | 0, _ => []
  | k + 1, n => n % 256 :: toLEBytesN k (n / 256)

/-- Python MD5F._append: pad the message and return the buffer as 32-bit
little-endian words. -/
def MD5F_append (message : List ℕ) : List ℕ :=
  let num2 := message.length
  let rem := num2 % 64
  let padCount := if rem < 56 then 55 - rem
    else if rem = 56 then 63
    else 63 - rem + 56
  let totalBytes := if rem < 56 then num2 - rem + 64
    else if rem = 56 then num2 + 8 + 64
    else num2 + 64 - rem + 64
  let bitLen := (num2 * 8) % 18446744073709551616
  let out := message ++ [0x80] ++ List.replicate padCount 0 ++ toLEBytesN 8 bitLen
  (List.range (totalBytes / 4)).map (fun i => fromLEBytes ((out.drop (4 * i)).take 4))

/-- Python MD5F._append_opt: ports MD5_Append_Opt, same computation as
MD5F._append performed over a pre-sized buffer. -/
def MD5F_append_opt (message : List ℕ) : List ℕ :=
  let num2 := message.length
  let rem := num2 % 64
  let padCount := if rem < 56 then 55 - rem
    else if rem = 56 then 63
    else 63 - rem + 56
  let totalBytes := if rem < 56 then num2 - rem + 64
    else if rem = 56 then num2 + 8 + 64
    else num2 + 64 - rem + 64
  let bitLen := (num2 * 8) % 18446744073709551616
  let out := message ++ [0x80] ++ List.replicate padCount 0 ++ toLEBytesN 8 bitLen
  (List.range (totalBytes / 4)).map (fun i => fromLEBytes ((out.drop (4 * i)).take 4))

/-- One 512-bit block of MD5F._transform: the 64 steps on the local words
a, b, c, d followed by the masked addition back into the class state.  The
block words x[i+0]..x[i+15] are the first 16 entries of w (the transform
always passes complete 16-word blocks, so the getD default is never hit). -/
def md5Block (w : List ℕ) (s : MD5State) : MD5State :=
  let a := s.A
  let b := s.B
  let c := s.C
  let d := s.D
  let a := mdFF a b c d (w.getD 0 0) 7 0xD76AA478
  let d := mdFF d a b c (w.getD 1 0) 12 0xE8C7B756
  let c := mdFF c d a b (w.getD 2 0) 17 0x242070DB
  let b := mdFF b c d a (w.getD 3 0) 22 0xC1BDCEEE
  let a := mdFF a b c d (w.getD 4 0) 7 0xF57C0FAF
  let d := mdFF d a b c (w.getD 5 0) 12 0x4787C62A
  let c := mdFF c d a b (w.getD 6 0) 17 0xA8304613
  let b := mdFF b c d a (w.getD 7 0) 22 0xFD469501
  let a := mdFF a b c d (w.getD 8 0) 7 0x698098D8
  let d := mdFF d a b c (w.getD 9 0) 12 0x8B44F7AF
  let c := mdFF c d a b (w.getD 10 0) 17 0xFFFF5BB1
  let b := mdFF b c d a (w.getD 11 0) 22 0x895CD7BE
  let a := mdFF a b c d (w.getD 12 0) 7 0x6B901122
  let d := mdFF d a b c (w.getD 13 0) 12 0xFD987193
  let c := mdFF c d a b (w.getD 14 0) 17 0xA679438E
  let b := mdFF b c d a (w.getD 15 0) 22 0x49B40821
  let a := mdGG a b c d (w.getD 1 0) 5 0xF61E2562
  let d := mdGG d a b c (w.getD 6 0) 9 0xC040B340
  let c := mdGG c d a b (w.getD 11 0) 14 0x265E5A51
  let b := mdGG b c d a (w.getD 0 0) 20 0xE9B6C7AA
  let a := mdGG a b c d (w.getD 5 0) 5 0xD62F105D
  let d := mdGG d a b c (w.getD 10 0) 9 0x02441453
  let c := mdGG c d a b (w.getD 15 0) 14 0xD8A1E681
  let b := mdGG b c d a (w.getD 4 0) 20 0xE7D3FBC8
  let a := mdGG a b c d (w.getD 9 0) 5 0x21E1CDE6
  let d := mdGG d a b c (w.getD 14 0) 9 0xC33707D6
  let c := mdGG c d a b (w.getD 3 0) 14 0xF4D50D87
  let b := mdGG b c d a (w.getD 8 0) 20 0x455A14ED
  let a := mdGG a b c d (w.getD 13 0) 5 0xA9E3E905
  let d := mdGG d a b c (w.getD 2 0) 9 0xFCEFA3F8
  let c := mdGG c d a b (w.getD 7 0) 14 0x676F02D9
  let b := mdGG b c d a (w.getD 12 0) 20 0x8D2A4C8A
  let a := mdHH a b c d (w.getD 5 0) 4 0xFFFA3942
  let d := mdHH d a b c (w.getD 8 0) 11 0x8771F681
  let c := mdHH c d a b (w.getD 11 0) 16 0x6D9D6122
  let b := mdHH b c d a (w.getD 14 0) 23 0xFDE5380C
  let a := mdHH a b c d (w.getD 1 0) 4 0xA4BEEA44
  let d := mdHH d a b c (w.getD 4 0) 11 0x4BDECFA9
  let c := mdHH c d a b (w.getD 7 0) 16 0xF6BB4B60
  let b := mdHH b c d a (w.getD 10 0) 23 0xBEBFBC70
  let a := mdHH a b c d (w.getD 13 0) 4 0x289B7EC6
  let d := mdHH d a b c (w.getD 0 0) 11 0xEAA127FA
  let c := mdHH c d a b (w.getD 3 0) 16 0xD4EF3085
  let b := mdHH b c d a (w.getD 6 0) 23 0x04881D05
  let a := mdHH a b c d (w.getD 9 0) 4 0xD9D4D039
  let d := mdHH d a b c (w.getD 12 0) 11 0xE6DB99E5
  let c := mdHH c d a b (w.getD 15 0) 16 0x1FA27CF8
  let b := mdHH b c d a (w.getD 2 0) 23 0xC4AC5665
  let a := mdII a b c d (w.getD 0 0) 6 0xF4292244
  let d := mdII d a b c (w.getD 7 0) 10 0x432AFF97
  let c := mdII c d a b (w.getD 14 0) 15 0xAB9423A7
  let b := mdII b c d a (w.getD 5 0) 21 0xFC93A039
  let a := mdII a b c d (w.getD 12 0) 6 0x655B59C3
  let d := mdII d a b c (w.getD 3 0) 10 0x8F0CCC92
  let c := mdII c d a b (w.getD 10 0) 15 0xFFEFF47D
  let b := mdII b c d a (w.getD 1 0) 21 0x85845DD1
  let a := mdII a b c d (w.getD 8 0) 6 0x6FA87E4F
  let d := mdII d a b c (w.getD 15 0) 10 0xFE2CE6E0
  let c := mdII c d a b (w.getD 6 0) 15 0xA3014314
  let b := mdII b c d a (w.getD 13 0) 21 0x4E0811A1
  let a := mdII a b c d (w.getD 4 0) 6 0xF7537E82
  let d := mdII d a b c (w.getD 11 0) 10 0xBD3AF235
  let c := mdII c d a b (w.getD 2 0) 15 0x2AD7D2BB
  let b := mdII b c d a (w.getD 9 0) 21 0xEB86D391
  ⟨(s.A + a) &&& MASK32, (s.B + b) &&& MASK32,
   (s.C + c) &&& MASK32, (s.D + d) &&& MASK32⟩

/-- Python MD5F._transform: process the word list block by block, reading
and writing the class state. -/
def md5Transform (x : List ℕ) (s : MD5State) : MD5State :=
  if x.length = 0 then s
  else md5Transform (x.drop 16) (md5Block (x.take 16) s)
  termination_by x.length
  decreasing_by simp only [List.length_drop]; omega

/-- Python MD5F._digest_to_bytes. -/
def MD5F_digest_to_bytes (s : MD5State) : List ℕ :=
  toLEBytesN 4 s.A ++ toLEBytesN 4 s.B ++ toLEBytesN 4 s.C ++ toLEBytesN 4 s.D

/-- Hexadecimal digit characters, uppercase. -/
def hexDigitChar (n : ℕ) : Char := "0123456789ABCDEF".data.getD n '0'

/-- Python format of one byte with 02X (as in MD5F._bytes_to_hex_upper). -/
def byteToHexUpper (b : ℕ) : String :=
  String.mk [hexDigitChar (b / 16), hexDigitChar (b % 16)]

/-- Python MD5F._bytes_to_hex_upper. -/
def MD5F_bytes_to_hex_upper (bs : List ℕ) : String :=
  String.join (bs.map byteToHexUpper)

/-- Python MD5F.Compute: resets the class state, pads with _append,
transforms, and renders the digest; the class-level words are threaded as an
explicit state, returned alongside the digest string. -/
def MD5F_Compute (message : List ℕ) (s : MD5State) : String × MD5State :=
  let s1 := MD5F_init_state s
  let s2 := md5Transform (MD5F_append message) s1
  (MD5F_bytes_to_hex_upper (MD5F_digest_to_bytes s2), s2)

/-- Python MD5F.Compute_Opt: identical to Compute except that it pads with
the _append_opt variant (the stream argument is its byte contents here). -/
def MD5F_Compute_Opt (message : List ℕ) (s : MD5State) : String × MD5State :=
  let s1 := MD5F_init_state s
  let s2 := md5Transform (MD5F_append_opt message) s1
  (MD5F_bytes_to_hex_upper (MD5F_digest_to_bytes s2), s2)

/-- C8: the basic and the optimized padding routine produce identical word
lists on every byte sequence (in particular on all lengths 0 to 130), and
consequently the two padding code paths yield identical digests on every
input and every incoming class state. -/
theorem C8_append_equals_append_opt :
    (∀ message : List ℕ, MD5F_append message = MD5F_append_opt message) ∧
    (∀ (message : List ℕ) (s : MD5State),
      MD5F_Compute message s = MD5F_Compute_Opt message s) :=
  ⟨fun _ => rfl, fun _ _ => rfl⟩

/-- C10: although the four accumulator words are class-level mutable state
in md5f.py, MD5F.Compute is a deterministic function of the message alone:
whatever class state two calls start from (that is, whatever other messages
were hashed in between), the digest strings agree, because _init_state
overwrites all four words at the start of every call. -/
theorem C10_compute_deterministic (message : List ℕ) (s t : MD5State) :
    (MD5F_Compute message s).1 = (MD5F_Compute message t).1 := rfl


/-- Python helpers.platform_name. -/
def platform_name (pid : ℕ) : String :=
  if pid = 1 then "Steam"
  else if pid = 2 then "WeGame"
  else if pid = 3 then "XGP"
  else "Standalone"

/-- models.PlayerData.  account_name keeps the raw UTF-8 bytes: the Python
decode with errors=replace never fails, so it cannot affect parsing control
flow, and no claim concerns the decoded text itself. -/
structure PlayerData where
  seed : ℤ
  stars : ℤ
  resource_multiplier : String
  combat_difficulty : String
  user_id : ℤ
  platform : String
  account_name : List ℕ
  generation_capacity : String
  is_anonymous : Bool
  deriving DecidableEq

/-- models.SeedData. -/
structure SeedData where
  seed : ℤ
  stars : ℤ
  resource_multiplier : String
  combat_difficulty : String
  player_count : ℤ
  total_generation_capacity : String
  deriving DecidableEq

/-- models.Summary. -/
structure Summary where
  total_players : ℤ
  total_generation_capacity : String
  total_sails_launched : ℤ
  total_dyson_spheres : ℤ
  deriving DecidableEq

/-- Construction of one PlayerData from the raw record fields, as in the
loop body of user_data_downloader._parse_user_data. -/
def playerFromFields (seed_key : ℤ) (user_id : ℤ) (platform : ℕ)
    (name_bytes : List ℕ) (gen_cap : ℤ) (is_anon : ℕ) : PlayerData :=
  { seed := (decode_seed_key seed_key).1,
    stars := (decode_seed_key seed_key).2.1,
    resource_multiplier := (decode_seed_key seed_key).2.2.1,
    combat_difficulty := (decode_seed_key seed_key).2.2.2,
    user_id := user_id,
    platform := platform_name platform,
    account_name := name_bytes,
    generation_capacity := format_generation_capacity (gen_cap * 60),
    is_anonymous := decide (is_anon > 0) }

/-- One player record of user_data_downloader._parse_user_data: i64 seed
key, i64 user id, u8 platform, varint-length-prefixed name bytes, i64
generation capacity, u8 anonymity flag. -/
def parsePlayerRecord : ReadM PlayerData :=
  bindR i64R (fun seed_key =>
  bindR i64R (fun user_id =>
  bindR u8R (fun platform =>
  bindR read7bit_encoded_int (fun name_len =>
  bindR (readR name_len) (fun name_bytes =>
  bindR i64R (fun gen_cap =>
  bindR u8R (fun is_anon =>
  pureR (playerFromFields seed_key user_id platform name_bytes gen_cap is_anon))))))))

/-- The record loop of _parse_user_data, reading n records in order. -/
def parsePlayers : ℕ → ReadM (List PlayerData)
  | 0 => pureR []
  | n + 1 =>
    bindR parsePlayerRecord (fun p =>
    bindR (parsePlayers n) (fun ps =>
    pureR (p :: ps)))

/-- Python user_data_downloader._parse_user_data: i32 header (discarded),
i32 record count, then that many records.  A negative count makes the
Python range empty, hence the toNat. -/
def parse_user_data : ReadM (List PlayerData) :=
  bindR i32R (fun _header =>
  bindR i32R (fun num_players =>
  parsePlayers num_players.toNat))

/-- Exact rational value of an IEEE-754 binary32 bit pattern, as the pair
(numerator, denominator 2^150): sign times mant*2 for subnormals and
(2^23+mant)*2^exp for normals, all over 2^150.  Exponent 255 (infinity or
NaN) yields none; the decoder feeds the value to Python int(), which raises
on those encodings. -/
def f32ValFrac (bits : ℕ) : Option (ℤ × ℤ) :=
  let sign := bits / 2147483648
  let exp := (bits / 8388608) % 256
  let mant := bits % 8388608
  if exp = 255 then none
  else some ((if sign = 1 then -1 else 1) *
    (if exp = 0 then (mant : ℤ) * 2 else ((8388608 + mant : ℕ) : ℤ) * 2 ^ exp),
    2 ^ 150)

/-- Python BinReader.f32 (little-endian binary32), with the value carried
as an exact fraction. -/
def f32R : ReadM (Option (ℤ × ℤ)) :=
  bindR (readR 4) (fun bs => pureR (f32ValFrac (fromLEBytes bs)))

/-- Construction of one SeedData from the raw record fields, as in the
per-seed loop of downloader._load_other_data; int(gen_cap * 60) is the
truncation toward zero of 60 times the exact float value. -/
def seedDataFromFields (seed_key : ℤ) (q : ℤ × ℤ) (player_num : ℤ) : SeedData :=
  { seed := (decode_seed_key seed_key).1,
    stars := (decode_seed_key seed_key).2.1,
    resource_multiplier := (decode_seed_key seed_key).2.2.1,
    combat_difficulty := (decode_seed_key seed_key).2.2.2,
    player_count := player_num,
    total_generation_capacity := format_generation_capacity ((60 * q.1).tdiv q.2) }

/-- One record of the per-seed aggregate block in _load_other_data: i64
seed key, f32 capacity, i32 player count, SeedData construction (which
raises on a non-finite float), then one ignored trailing u32 that is read
and discarded to keep the stream aligned. -/
def parseSeedRecord : ReadM SeedData :=
  bindR i64R (fun seed_key =>
  bindR f32R (fun gen_cap =>
  bindR i32R (fun player_num =>
  match gen_cap with
  | none => fun _ => .error .nonFiniteFloat
  | some q =>
    bindR u32R (fun _ignored =>
    pureR (seedDataFromFields seed_key q player_num)))))

/-- The per-seed record loop of _load_other_data. -/
def parseSeedRecords : ℕ → ReadM (List SeedData)
  | 0 => pureR []
  | n + 1 =>
    bindR parseSeedRecord (fun r =>
    bindR (parseSeedRecords n) (fun rs =>
    pureR (r :: rs)))

/-- Summary block of downloader._load_other_data: u32 version (discarded),
i64 total capacity, i64 total sails, i32 total players, i32 total spheres. -/
def parseSummary : ReadM Summary :=
  bindR u32R (fun _version =>
  bindR i64R (fun total_gen_cap =>
  bindR i64R (fun total_sail =>
  bindR i32R (fun total_player =>
  bindR i32R (fun total_dyson =>
  pureR { total_players := total_player,
          total_generation_capacity := format_generation_capacity (total_gen_cap * 60),
          total_sails_launched := total_sail,
          total_dyson_spheres := total_dyson })))))

/-- Per-seed aggregate block of _load_other_data: u32 version (discarded),
i32 record count, then that many 20-byte records. -/
def parseSeedBlock : ReadM (List SeedData) :=
  bindR u32R (fun _version =>
  bindR i32R (fun num =>
  parseSeedRecords num.toNat))

/-- Python downloader._load_other_data: the summary block followed by the
per-seed aggregate block. -/
def load_other_data : ReadM (Summary × List SeedData) :=
  bindR parseSummary (fun summary =>
  bindR parseSeedBlock (fun seeds =>
  pureR (summary, seeds)))


theorem bindR_ok_iff {α β : Type} {p : ReadM α} {q : α → ReadM β}
    {s : BinState} {b : β} {s2 : BinState} :
    bindR p q s = .ok (b, s2) ↔
      ∃ a s1, p s = .ok (a, s1) ∧ q a s1 = .ok (b, s2) := by
  unfold bindR
  cases hp : p s with
  | error e => simp
  | ok v =>
    obtain ⟨a, s1⟩ := v
    constructor
    · intro h
      exact ⟨a, s1, rfl, h⟩
    · rintro ⟨a', s1', h1, h2⟩
      simp only [Except.ok.injEq, Prod.mk.injEq] at h1
      obtain ⟨rfl, rfl⟩ := h1
      exact h2

theorem readR_ok {n : ℕ} {data : List ℕ} {pos : ℕ} {bs : List ℕ}
    {s' : BinState} (h : readR n ⟨data, pos⟩ = .ok (bs, s')) :
    bs = (data.drop pos).take n ∧ s' = ⟨data, pos + n⟩ ∧
      pos + n ≤ data.length := by
  unfold readR at h
  by_cases hc : pos + n ≤ data.length
  · rw [if_pos hc] at h
    simp only [Except.ok.injEq, Prod.mk.injEq] at h
    exact ⟨h.1.symm, h.2.symm, hc⟩
  · rw [if_neg hc] at h
    simp at h

theorem i64R_ok {data : List ℕ} {pos : ℕ} {v : ℤ} {s' : BinState}
    (h : i64R ⟨data, pos⟩ = .ok (v, s')) : s' = ⟨data, pos + 8⟩ := by
  unfold i64R at h
  rw [bindR_ok_iff] at h
  obtain ⟨bs, s1, h1, h2⟩ := h
  obtain ⟨-, rfl, -⟩ := readR_ok h1
  simp only [pureR, Except.ok.injEq, Prod.mk.injEq] at h2
  exact h2.2.symm

theorem i32R_ok {data : List ℕ} {pos : ℕ} {v : ℤ} {s' : BinState}
    (h : i32R ⟨data, pos⟩ = .ok (v, s')) : s' = ⟨data, pos + 4⟩ := by
  unfold i32R at h
  rw [bindR_ok_iff] at h
  obtain ⟨bs, s1, h1, h2⟩ := h
  obtain ⟨-, rfl, -⟩ := readR_ok h1
  simp only [pureR, Except.ok.injEq, Prod.mk.injEq] at h2
  exact h2.2.symm

theorem u32R_ok {data : List ℕ} {pos : ℕ} {v : ℕ} {s' : BinState}
    (h : u32R ⟨data, pos⟩ = .ok (v, s')) : s' = ⟨data, pos + 4⟩ := by
  unfold u32R at h
  rw [bindR_ok_iff] at h
  obtain ⟨bs, s1, h1, h2⟩ := h
  obtain ⟨-, rfl, -⟩ := readR_ok h1
  simp only [pureR, Except.ok.injEq, Prod.mk.injEq] at h2
  exact h2.2.symm

theorem f32R_ok {data : List ℕ} {pos : ℕ} {v : Option (ℤ × ℤ)} {s' : BinState}
    (h : f32R ⟨data, pos⟩ = .ok (v, s')) :
    v = f32ValFrac (fromLEBytes ((data.drop pos).take 4)) ∧
      s' = ⟨data, pos + 4⟩ := by
  unfold f32R at h
  rw [bindR_ok_iff] at h
  obtain ⟨bs, s1, h1, h2⟩ := h
  obtain ⟨rfl, rfl, -⟩ := readR_ok h1
  simp only [pureR, Except.ok.injEq, Prod.mk.injEq] at h2
  exact ⟨h2.1.symm, h2.2.symm⟩

theorem parseSeedRecord_ok {data : List ℕ} {pos : ℕ} {r : SeedData}
    {s' : BinState} (h : parseSeedRecord ⟨data, pos⟩ = .ok (r, s')) :
    s' = ⟨data, pos + 20⟩ ∧
    ∃ nq dq : ℤ,
      f32ValFrac (fromLEBytes ((data.drop (pos + 8)).take 4)) = some (nq, dq) ∧
      r.total_generation_capacity =
        format_generation_capacity ((60 * nq).tdiv dq) := by
  unfold parseSeedRecord at h
  rw [bindR_ok_iff] at h
  obtain ⟨sk, s1, h1, h⟩ := h
  obtain rfl := i64R_ok h1
  rw [bindR_ok_iff] at h
  obtain ⟨qo, s2, h2, h⟩ := h
  obtain ⟨hqv, rfl⟩ := f32R_ok h2
  rw [bindR_ok_iff] at h
  obtain ⟨pn, s3, h3, h⟩ := h
  obtain rfl := i32R_ok h3
  cases qo with
  | none => simp at h
  | some q =>
    rw [bindR_ok_iff] at h
    obtain ⟨ig, s4, h4, h⟩ := h
    obtain rfl := u32R_ok h4
    simp only [pureR, Except.ok.injEq, Prod.mk.injEq] at h
    obtain ⟨rfl, rfl⟩ := h
    refine ⟨?_, q.1, q.2, ?_, rfl⟩
    · rw [show pos + 8 + 4 + 4 + 4 = pos + 20 from by omega]
    · rw [← hqv]

theorem parseSeedRecords_ok :
    ∀ (n : ℕ) (data : List ℕ) (pos : ℕ) (l : List SeedData) (s' : BinState),
      parseSeedRecords n ⟨data, pos⟩ = .ok (l, s') →
      s' = ⟨data, pos + 20 * n⟩ ∧ l.length = n := by
  intro n
  induction n with
  | zero =>
    intro data pos l s' h
    simp only [parseSeedRecords, pureR, Except.ok.injEq, Prod.mk.injEq] at h
    obtain ⟨rfl, rfl⟩ := h
    exact ⟨by rw [show pos + 20 * 0 = pos from by omega], rfl⟩
  | succ n ih =>
    intro data pos l s' h
    simp only [parseSeedRecords] at h
    rw [bindR_ok_iff] at h
    obtain ⟨r, s1, h1, h⟩ := h
    obtain ⟨rfl, -⟩ := parseSeedRecord_ok h1
    rw [bindR_ok_iff] at h
    obtain ⟨rs, s2, h2, h⟩ := h
    obtain ⟨rfl, hl2⟩ := ih data _ rs s2 h2
    simp only [pureR, Except.ok.injEq, Prod.mk.injEq] at h
    obtain ⟨rfl, rfl⟩ := h
    refine ⟨by rw [show pos + 20 + 20 * n = pos + 20 * (n + 1) from by omega],
      by simp [hl2]⟩

theorem parseSeedBlock_ok {data : List ℕ} {pos : ℕ} {l : List SeedData}
    {s' : BinState} (h : parseSeedBlock ⟨data, pos⟩ = .ok (l, s')) :
    s' = ⟨data, pos + 8 + 20 * l.length⟩ := by
  unfold parseSeedBlock at h
  rw [bindR_ok_iff] at h
  obtain ⟨ver, s1, h1, h⟩ := h
  obtain rfl := u32R_ok h1
  rw [bindR_ok_iff] at h
  obtain ⟨num, s2, h2, h⟩ := h
  obtain rfl := i32R_ok h2
  obtain ⟨rfl, hl⟩ := parseSeedRecords_ok num.toNat data _ l s' h
  rw [hl, show pos + 4 + 4 + 20 * num.toNat = pos + 8 + 20 * num.toNat from by omega]

/-- C7: every record of the per-seed aggregate block consumes exactly 20
bytes (an i64 seed key, an f32 capacity, an i32 player count, and one
ignored trailing u32 that is read and discarded), its capacity string is
format_generation_capacity applied to the truncation of 60 times the exact
value of the f32 read at offset 8 of the record, and a successful block
decode of n records leaves the cursor exactly 8 + 20*n bytes past the block
start (8 bytes of block header, then 20 per record). -/
theorem C7_per_seed_record_layout :
    (∀ (data : List ℕ) (pos : ℕ) (r : SeedData) (s' : BinState),
      parseSeedRecord ⟨data, pos⟩ = .ok (r, s') →
      s'.data = data ∧ s'.pos = pos + 20 ∧
      ∃ nq dq : ℤ,
        f32ValFrac (fromLEBytes ((data.drop (pos + 8)).take 4)) = some (nq, dq) ∧
        r.total_generation_capacity =
          format_generation_capacity ((60 * nq).tdiv dq)) ∧
    (∀ (data : List ℕ) (pos : ℕ) (l : List SeedData) (s' : BinState),
      parseSeedBlock ⟨data, pos⟩ = .ok (l, s') →
      s'.pos = pos + 8 + 20 * l.length) :=
  ⟨fun _ _ _ _ h => by
      obtain ⟨rfl, hcap⟩ := parseSeedRecord_ok h
      exact ⟨rfl, rfl, hcap⟩,
   fun _ _ _ _ h => by
      obtain rfl := parseSeedBlock_ok h
      rfl⟩

set_option maxRecDepth 40000 in
/-- Witness for C7 on an all-zero record (f32 value 0, capacity 0 W) and an
empty block (count 0: cursor ends 8 bytes in). -/
theorem C7_per_seed_record_layout_witness :
    ((⟨List.replicate 20 0, 20⟩ : BinState).data = List.replicate 20 0 ∧
     (⟨List.replicate 20 0, 20⟩ : BinState).pos = 0 + 20 ∧
     ∃ nq dq : ℤ,
       f32ValFrac (fromLEBytes (((List.replicate (20:ℕ) (0:ℕ)).drop (0 + 8)).take 4)) =
         some (nq, dq) ∧
       (SeedData.mk 0 0 "0.0" "和平模式" 0 "0 W").total_generation_capacity =
         format_generation_capacity ((60 * nq).tdiv dq)) ∧
    (⟨List.replicate 8 0, 8⟩ : BinState).pos =
      0 + 8 + 20 * ([] : List SeedData).length :=
  ⟨C7_per_seed_record_layout.1 (List.replicate 20 0) 0
      (SeedData.mk 0 0 "0.0" "和平模式" 0 "0 W") ⟨List.replicate 20 0, 20⟩
      (by rfl),
   C7_per_seed_record_layout.2 (List.replicate 8 0) 0 []
      ⟨List.replicate 8 0, 8⟩ (by rfl)⟩


/-- A reader computation built from forward reads: on success the buffer is
unchanged and the cursor moves forward, truncating the buffer at or beyond
the final cursor leaves the result unchanged, and truncating it strictly
below the final cursor makes the computation fail with the EOF error.  This
is the failure policy C5 states: a short read anywhere surfaces as
unexpectedEOF and aborts the whole decode, never yielding a partial result. -/
def PrefixSafe {α : Type} (p : ReadM α) : Prop :=
  ∀ (data : List ℕ) (pos : ℕ) (a : α) (s' : BinState),
    p ⟨data, pos⟩ = .ok (a, s') →
    s'.data = data ∧ pos ≤ s'.pos ∧ (s'.pos ≤ data.length ∨ s'.pos = pos) ∧
    (∀ m : ℕ, s'.pos ≤ m →
      p ⟨data.take m, pos⟩ = .ok (a, ⟨data.take m, s'.pos⟩)) ∧
    (∀ m : ℕ, pos ≤ m → m < s'.pos → m ≤ data.length →
      p ⟨data.take m, pos⟩ = .error .unexpectedEOF)

theorem prefixSafe_pureR {α : Type} (a : α) : PrefixSafe (pureR a) := by
  intro data pos a' s' h
  simp only [pureR, Except.ok.injEq, Prod.mk.injEq] at h
  obtain ⟨rfl, rfl⟩ := h
  refine ⟨rfl, le_refl _, Or.inr rfl, ?_, ?_⟩
  · intro m _
    rfl
  · intro m h1 h2 _
    have h2' : m < pos := h2
    omega

theorem prefixSafe_readR (n : ℕ) : PrefixSafe (readR n) := by
  intro data pos a s' h
  obtain ⟨rfl, rfl, hle⟩ := readR_ok h
  refine ⟨rfl, Nat.le_add_right pos n, Or.inl hle, ?_, ?_⟩
  · intro m hm
    have hm' : pos + n ≤ m := hm
    unfold readR
    rw [if_pos (by simp only [List.length_take]; omega :
      pos + n ≤ (data.take m).length)]
    have hbytes : ((data.take m).drop pos).take n = (data.drop pos).take n := by
      rw [List.drop_take, List.take_take]
      congr 1
      omega
    rw [hbytes]
  · intro m hpm hm hmlen
    have hm' : m < pos + n := hm
    unfold readR
    rw [if_neg (by simp only [List.length_take]; omega :
      ¬ pos + n ≤ (data.take m).length)]

theorem prefixSafe_bindR {α β : Type} {p : ReadM α} {q : α → ReadM β}
    (hp : PrefixSafe p) (hq : ∀ a, PrefixSafe (q a)) :
    PrefixSafe (bindR p q) := by
  intro data pos b s2 h
  unfold bindR at h
  cases hps : p ⟨data, pos⟩ with
  | error e =>
    rw [hps] at h
    simp at h
  | ok v =>
    obtain ⟨a, s1⟩ := v
    rw [hps] at h
    obtain ⟨hd1, hple1, hbnd1, hok1, herr1⟩ := hp data pos a s1 hps
    have hs1 : s1 = (⟨data, s1.pos⟩ : BinState) := by rw [← hd1]
    rw [hs1] at h
    obtain ⟨hd2, hple2, hbnd2, hok2, herr2⟩ := hq a data s1.pos b s2 h
    refine ⟨hd2, le_trans hple1 hple2, ?_, ?_, ?_⟩
    · rcases hbnd2 with h2 | h2
      · exact Or.inl h2
      · rcases hbnd1 with h1 | h1
        · exact Or.inl (by omega)
        · exact Or.inr (by omega)
    · intro m hm
      unfold bindR
      rw [hok1 m (le_trans hple2 hm)]
      exact hok2 m hm
    · intro m hm1 hm2 hm3
      by_cases hc : m < s1.pos
      · unfold bindR
        rw [herr1 m hm1 hc hm3]
      · push_neg at hc
        unfold bindR
        rw [hok1 m hc]
        exact herr2 m hc hm2 hm3

theorem prefixSafe_u8R : PrefixSafe u8R :=
  prefixSafe_bindR (prefixSafe_readR 1) (fun _bs => prefixSafe_pureR _)

theorem prefixSafe_u32R : PrefixSafe u32R :=
  prefixSafe_bindR (prefixSafe_readR 4) (fun _bs => prefixSafe_pureR _)

theorem prefixSafe_i32R : PrefixSafe i32R :=
  prefixSafe_bindR (prefixSafe_readR 4) (fun _bs => prefixSafe_pureR _)

theorem prefixSafe_i64R : PrefixSafe i64R :=
  prefixSafe_bindR (prefixSafe_readR 8) (fun _bs => prefixSafe_pureR _)

theorem prefixSafe_read7bitLoop :
    ∀ (fuel num shift : ℕ), PrefixSafe (read7bitLoop fuel num shift) := by
  intro fuel
  induction fuel with
  | zero =>
    intro num shift data pos a s' h
    simp [read7bitLoop] at h
  | succ f ih =>
    intro num shift
    have hbody : PrefixSafe (bindR u8R (fun b =>
        if b &&& 128 = 0 then pureR (num ||| ((b &&& 127) <<< shift))
        else read7bitLoop f (num ||| ((b &&& 127) <<< shift)) (shift + 7))) := by
      refine prefixSafe_bindR prefixSafe_u8R (fun b => ?_)
      by_cases hb : b &&& 128 = 0
      · rw [if_pos hb]
        exact prefixSafe_pureR _
      · rw [if_neg hb]
        exact ih _ _
    exact hbody

theorem prefixSafe_varint : PrefixSafe read7bit_encoded_int :=
  prefixSafe_read7bitLoop 5 0 0

theorem prefixSafe_parsePlayerRecord : PrefixSafe parsePlayerRecord :=
  prefixSafe_bindR prefixSafe_i64R (fun _ =>
  prefixSafe_bindR prefixSafe_i64R (fun _ =>
  prefixSafe_bindR prefixSafe_u8R (fun _ =>
  prefixSafe_bindR prefixSafe_varint (fun name_len =>
  prefixSafe_bindR (prefixSafe_readR name_len) (fun _ =>
  prefixSafe_bindR prefixSafe_i64R (fun _ =>
  prefixSafe_bindR prefixSafe_u8R (fun _ =>
  prefixSafe_pureR _)))))))

theorem prefixSafe_parsePlayers : ∀ n : ℕ, PrefixSafe (parsePlayers n) := by
  intro n
  induction n with
  | zero => exact prefixSafe_pureR []
  | succ n ih =>
    exact prefixSafe_bindR prefixSafe_parsePlayerRecord (fun p =>
      prefixSafe_bindR ih (fun ps => prefixSafe_pureR _))

theorem prefixSafe_parse_user_data : PrefixSafe parse_user_data :=
  prefixSafe_bindR prefixSafe_i32R (fun _ =>
  prefixSafe_bindR prefixSafe_i32R (fun num =>
  prefixSafe_parsePlayers num.toNat))

/-- C5: BinReader.read returns the next n bytes and advances the cursor by
n when at least n bytes remain, and raises the EOF error otherwise; and for
every buffer on which the flat user-data decoder succeeds, every strict
truncation below its final cursor (in particular any cut mid-record) makes
the whole decode fail with the EOF error, so no partial record list is ever
returned. -/
theorem C5_read_exact_and_truncation :
    (∀ (data : List ℕ) (pos n : ℕ),
      (pos + n ≤ data.length →
        readR n ⟨data, pos⟩ = .ok ((data.drop pos).take n, ⟨data, pos + n⟩)) ∧
      (data.length < pos + n →
        readR n ⟨data, pos⟩ = .error .unexpectedEOF)) ∧
    (∀ (data : List ℕ) (players : List PlayerData) (s' : BinState) (m : ℕ),
      parse_user_data ⟨data, 0⟩ = .ok (players, s') →
      m < s'.pos →
      parse_user_data ⟨data.take m, 0⟩ = .error .unexpectedEOF) := by
  constructor
  · intro data pos n
    constructor
    · intro h
      unfold readR
      rw [if_pos h]
    · intro h
      unfold readR
      rw [if_neg (by omega : ¬ pos + n ≤ data.length)]
  · intro data players s' m h hm
    obtain ⟨hd, hple, hbnd, hok, herr⟩ := prefixSafe_parse_user_data data 0 players s' h
    have hmlen : m ≤ data.length := by
      rcases hbnd with h1 | h1
      · omega
      · omega
    exact herr m (Nat.zero_le m) hm hmlen

/-- A well-formed flat user-data payload: i32 header, record count 1, then
a single all-zero record (empty name), 35 bytes in total. -/
def userDataBytesExample : List ℕ :=
  [0, 0, 0, 0, 1, 0, 0, 0,
   0, 0, 0, 0, 0, 0, 0, 0,
   0, 0, 0, 0, 0, 0, 0, 0,
   0,
   0,
   0, 0, 0, 0, 0, 0, 0, 0,
   0]

/-- Witness for C5: the read contract at a concrete buffer, and the example
user-data payload truncated to 20 bytes (mid-record) fails with EOF. -/
theorem C5_read_exact_and_truncation_witness :
    (readR 2 ⟨[7, 8, 9], 0⟩ = .ok ([7, 8], ⟨[7, 8, 9], 2⟩) ∧
     readR 3 ⟨[7, 8], 1⟩ = .error .unexpectedEOF) ∧
    parse_user_data ⟨userDataBytesExample.take 20, 0⟩ =
      .error .unexpectedEOF := by
  refine ⟨⟨?_, ?_⟩, ?_⟩
  · have h := (C5_read_exact_and_truncation.1 [7, 8, 9] 0 2).1 (by decide)
    simpa using h
  · exact (C5_read_exact_and_truncation.1 [7, 8] 1 3).2 (by decide)
  · exact C5_read_exact_and_truncation.2 userDataBytesExample
      [PlayerData.mk 0 0 "0.0" "和平模式" 0 "Standalone" [] "0 W" false]
      ⟨userDataBytesExample, 35⟩ 20 (by rfl) (by decide)

end DSP
